import Mathlib

/-!
Shallow embedding of the xMap source-map library core: the base64 VLQ codec
(`encodeVLQ`, `decodeVLQ`), the `MappingProvider` decode/lookup engine, and the
`SourceService` envelope (validation, mapping decode, `concat`).

JavaScript numeric semantics are modelled explicitly: bitwise operators work on
32-bit values (`toUint32` / `toInt32` conversions with `% 2^32`), and the
`NaN`/`undefined` values that arise when a decoded delta vector is shorter than
the destructuring pattern are modelled as `none` in `Option Int` (the only
non-integral values reachable on these code paths).
-/

namespace XMap

/-- JavaScript ToUint32 of an integral number. -/
def toUint32 (n : Int) : Nat := (n % 4294967296).toNat

/-- JavaScript ToInt32 of an integral number. -/
def toInt32 (n : Int) : Int :=
  let u := n % 4294967296
  if u < 2147483648 then u else u - 4294967296

/-- JavaScript `a << b` on integral numbers. -/
def jsShl (a b : Int) : Int := toInt32 ((toUint32 a) * 2 ^ ((toUint32 b) % 32))

/-- JavaScript `a >> b` (sign-propagating right shift) on integral numbers. -/
def jsShr (a b : Int) : Int := Int.fdiv (toInt32 a) (2 ^ ((toUint32 b) % 32))

/-- JavaScript `a & b` on integral numbers. -/
def jsAnd (a b : Int) : Int := toInt32 (((toUint32 a) &&& (toUint32 b) : Nat))

/-- The base64 alphabet of `base64.component.ts`. -/
def base64Chars : List Char :=
  "ABCDEFGHIJKLMNOPQRSTUVWXYZabcdefghijklmnopqrstuvwxyz0123456789+/".toList

/-- The `base64Map` lookup table: character to its index in `base64Chars`. -/
def base64Map (c : Char) : Option Nat := base64Chars.findIdx? (fun x => x == c)

/-- The do-while digit loop of `encodeVLQ`, with explicit fuel (structural
recursion so the kernel can evaluate it).  `encodeNat` supplies enough fuel. -/
def encodeNatAux : Nat → Nat → List Nat
  | 0, vlq => [vlq &&& 31]
  | fuel + 1, vlq =>
    let digit := vlq &&& 31
    let next := vlq >>> 5
    if 0 < next then (digit ||| 32) :: encodeNatAux fuel next else [digit]

/-- The do-while digit loop of `encodeVLQ`, operating on the unsigned 32-bit
carrier (`vlq & 31` / `vlq >>>= 5` act on the uint32 bit pattern). -/
def encodeNat (vlq : Nat) : List Nat := encodeNatAux vlq vlq

/-- `encodeVLQ(value)`: sign bit in the least-significant position, then
little-endian base-32 digits with a continuation bit. -/
def encodeVLQ (value : Int) : String :=
  let isNegative := value < 0
  let vlq : Int := if isNegative then jsShl (-value) 1 + 1 else jsShl value 1
  String.mk ((encodeNat (toUint32 vlq)).map (fun d => base64Chars.getD d ' '))

/-- `encodeArrayVLQ(values)`: concatenation of the per-integer encodings. -/
def encodeArrayVLQ (values : List Int) : String :=
  String.join (values.map encodeVLQ)

/-- The mutable locals of `decodeVLQ`: `shift`, `value`, `result`. -/
structure DecState where
  shift : Int
  value : Int
  result : List Int
deriving DecidableEq, Repr

/-- One iteration of the `decodeVLQ` character loop.  `none` models the thrown
`Invalid Base64 character` error. -/
def decodeStep (st : DecState) (c : Char) : Option DecState :=
  match base64Map c with
  | none => none
  | some digit =>
    let continuation := digit &&& 32
    let value := st.value + jsShl ((digit &&& 31 : Nat) : Int) st.shift
    if continuation != 0 then
      some { shift := st.shift + 5, value := value, result := st.result }
    else
      let isNegative := jsAnd value 1 == 1
      let shifted := jsShr value 1
      some { shift := 0, value := 0,
             result := st.result ++ [if isNegative then -shifted else shifted] }

/-- `decodeVLQ` over an explicit character list. -/
def decodeVLQchars (data : List Char) : Option (List Int) :=
  (data.foldlM decodeStep { shift := 0, value := 0, result := [] }).map DecState.result

/-- `decodeVLQ(data)`: decodes a base64 VLQ string to the array of integers. -/
def decodeVLQ (data : String) : Option (List Int) := decodeVLQchars data.toList

/-! ## MappingProvider (`mapping.provider.ts`) -/

/-- JavaScript `+` where either operand may be `undefined`/`NaN` (`none`). -/
def jsAddOpt (a b : Option Int) : Option Int :=
  match a, b with
  | some x, some y => some (x + y)
  | _, _ => none

/-- JavaScript `a < b` where `a` may be `NaN` (`none`); `NaN < b` is false. -/
def jsLtOpt (a : Option Int) (b : Int) : Bool :=
  match a with
  | some x => x < b
  | none => false

/-- JavaScript `a > b` where `a` may be `NaN` (`none`); `NaN > b` is false. -/
def jsGtOpt (a : Option Int) (b : Int) : Bool :=
  match a with
  | some x => b < x
  | none => false

/-- `SegmentInterface`: numeric fields that can hold `NaN` are `Option Int`
(`none` = `NaN`); `nameIndex` is `Option Int` with `none` = `null`. -/
structure Segment where
  line : Option Int
  column : Option Int
  nameIndex : Option Int
  sourceIndex : Option Int
  generatedLine : Int
  generatedColumn : Option Int
deriving DecidableEq, Repr

/-- `SegmentOffsetInterface`: the decode accumulator.  `nameIndex` is always a
number (`?? 0` guards it); the other delta-accumulated fields can become
`NaN`. -/
structure SegmentOffset where
  line : Option Int
  column : Option Int
  nameIndex : Int
  sourceIndex : Option Int
  generatedLine : Int
  generatedColumn : Option Int
deriving DecidableEq, Repr

/-- A frame is `null` or an array of segments; the map is the frame array. -/
abbrev MapType := List (Option (List Segment))

/-- `initPositionOffsets(namesOffset, sourceIndex)`. -/
def initPositionOffsets (namesOffset sourceIndex : Int) : SegmentOffset :=
  { line := some 0, column := some 0, nameIndex := namesOffset,
    sourceIndex := some sourceIndex, generatedLine := 0, generatedColumn := some 0 }

/-- `MappingProvider.decodedSegment`: applies the delta vector to the
accumulator and emits the 1-based segment.  Entries missing from the
destructuring are `undefined` (`List.get?` = `none`), so `+=` yields `NaN`. -/
def decodedSegment (segmentOffset : SegmentOffset) (ds : List Int) :
    SegmentOffset × Segment :=
  let generatedColumn := ds.get? 0
  let sourceIndex := ds.get? 1
  let sourceLine := ds.get? 2
  let sourceColumn := ds.get? 3
  let nameIndex := ds.get? 4
  let off := { segmentOffset with
    line := jsAddOpt segmentOffset.line sourceLine,
    column := jsAddOpt segmentOffset.column sourceColumn,
    nameIndex := segmentOffset.nameIndex + nameIndex.getD 0,
    sourceIndex := jsAddOpt segmentOffset.sourceIndex sourceIndex,
    generatedColumn := jsAddOpt segmentOffset.generatedColumn generatedColumn }
  (off,
   { line := off.line.map (· + 1),
     column := off.column.map (· + 1),
     nameIndex := if nameIndex.isSome then some off.nameIndex else none,
     sourceIndex := off.sourceIndex,
     generatedLine := off.generatedLine + 1,
     generatedColumn := off.generatedColumn.map (· + 1) })

/-- `String.prototype.split` with a single-character separator. -/
def splitOnChar (sep : Char) : List Char → List (List Char)
  | [] => [[]]
  | c :: rest =>
    let r := splitOnChar sep rest
    if c = sep then [] :: r
    else
      match r with
      | [] => [[c]]
      | h :: t => (c :: h) :: t

/-- A character allowed by `validateMappingString`'s regex
`^[a-zA-Z0-9+/,;]+$` (exactly the base64 alphabet plus the separators). -/
def isMappingChar (c : Char) : Bool :=
  base64Chars.contains c || c == ',' || c == ';'

/-- `MappingProvider.validateMappingString`. -/
def validateMappingString (encodedSourceMap : String) : Bool :=
  !encodedSourceMap.toList.isEmpty && encodedSourceMap.toList.all isMappingChar

/-- Errors thrown by the mapping decode paths. -/
inductive MapError where
  | invalidFormat
  | invalidVLQ
deriving DecidableEq, Repr

/-- The `frame.split(',').map(segment => decodedSegment(...))` inner loop. -/
def decodeSegments : List (List Char) → SegmentOffset →
    Except MapError (SegmentOffset × List Segment)
  | [], off => .ok (off, [])
  | s :: rest, off =>
    match decodeVLQchars s with
    | none => .error .invalidVLQ
    | some ds =>
      let p := decodedSegment off ds
      match decodeSegments rest p.1 with
      | .error e => .error e
      | .ok (off2, segs) => .ok (off2, p.2 :: segs)

/-- The per-frame reset at the top of the `frames.forEach` body: only
`generatedColumn` and `generatedLine` are overwritten. -/
def frameReset (off : SegmentOffset) (generatedLine : Int) : SegmentOffset :=
  { off with generatedColumn := some 0, generatedLine := generatedLine }

/-- The `frames.forEach` loop of `decodeMappingString`.  An error carries the
mapping array as mutated so far (pushes before the throw are retained). -/
def decodeFrames : List (List Char) → Nat → Int → SegmentOffset → MapType →
    Except (MapError × MapType) MapType
  | [], _, _, _, acc => .ok acc
  | frame :: rest, index, linesOffset, off, acc =>
    if frame.isEmpty then
      decodeFrames rest (index + 1) linesOffset off (acc ++ [none])
    else
      match decodeSegments (splitOnChar ',' frame) (frameReset off (linesOffset + index)) with
      | .error e => .error (e, acc)
      | .ok (off1, segs) => decodeFrames rest (index + 1) linesOffset off1 (acc ++ [some segs])

/-- `MappingProvider.decodeMappingString`, with the provider's current
`this.mapping` passed and returned explicitly. -/
def decodeMappingString (mapping : MapType) (encodedMap : String)
    (namesOffset sourceOffset : Int) : Except (MapError × MapType) MapType :=
  if ¬ validateMappingString encodedMap then .error (.invalidFormat, mapping)
  else
    decodeFrames (splitOnChar ';' encodedMap.toList) 0 (mapping.length)
      (initPositionOffsets namesOffset sourceOffset) mapping

/-- The `Bias` enum of `mapping-provider.interface.ts`. -/
inductive Bias where
  | BOUND
  | LOWER_BOUND
  | UPPER_BOUND
deriving DecidableEq, Repr

/-- The binary-search loop of `MappingProvider.getSegment`, with explicit fuel
(any fuel at least the width of the initial `[low, high]` window is enough for
the loop to run to completion). -/
def getSegmentLoop (segs : List Segment) (target : Int) (bias : Bias) :
    Nat → Nat → Int → Option Segment → Option Segment
  | 0, _, _, closest => closest
  | fuel + 1, low, high, closest =>
    if (low : Int) ≤ high then
      let mid : Nat := (low + high.toNat) / 2
      match segs.get? mid with
      | none => none
      | some segment =>
        if jsLtOpt segment.generatedColumn target then
          getSegmentLoop segs target bias fuel (mid + 1) high
            (if bias = Bias.LOWER_BOUND then some segment else closest)
        else if jsGtOpt segment.generatedColumn target then
          getSegmentLoop segs target bias fuel low ((mid : Int) - 1)
            (if bias = Bias.UPPER_BOUND then some segment else closest)
        else some segment
    else closest

/-- `MappingProvider.getSegment(generatedLine, generatedColumn, bias)`. -/
def getSegment (mapping : MapType) (generatedLine generatedColumn : Int)
    (bias : Bias) : Option Segment :=
  let segments :=
    if generatedLine < 1 then none
    else (mapping.get? (generatedLine - 1).toNat).join
  match segments with
  | none => none
  | some segs =>
    if segs.length = 0 then none
    else getSegmentLoop segs generatedColumn bias segs.length 0 ((segs.length : Int) - 1) none

instance {ε α : Type} [DecidableEq ε] [DecidableEq α] : DecidableEq (Except ε α) := fun x y =>
  match x, y with
  | .ok a, .ok b =>
    if h : a = b then isTrue (congrArg Except.ok h)
    else isFalse (fun hc => h (Except.ok.inj hc))
  | .error a, .error b =>
    if h : a = b then isTrue (congrArg Except.error h)
    else isFalse (fun hc => h (Except.error.inj hc))
  | .ok _, .error _ => isFalse (fun hc => Except.noConfusion hc)
  | .error _, .ok _ => isFalse (fun hc => Except.noConfusion hc)

/-- The segment decoded from the minimal blob `"AAAA"`. -/
def segAAAA : Segment :=
  { line := some 1, column := some 1, nameIndex := none, sourceIndex := some 0,
    generatedLine := 1, generatedColumn := some 1 }

/-! ## SourceService (`source.service.ts`) -/

/-- `MappingInterface`: one decoded mapping entry of the service. -/
structure Mapping where
  nameIndex : Option Int
  fileIndex : Option Int
  sourceLine : Option Int
  sourceColumn : Option Int
  generatedLine : Int
  generatedColumn : Option Int
deriving DecidableEq, Repr

/-- `ShiftSegmentInterface`: the service's decode accumulator. -/
structure ShiftSegment where
  fileIndex : Option Int
  nameIndex : Int
  sourceLine : Option Int
  sourceColumn : Option Int
  generatedLine : Int
  generatedColumn : Option Int
deriving DecidableEq, Repr

/-- The default shift state of `SourceService.decodeMappings` (lines and
columns are 1-based). -/
def defaultShift : ShiftSegment :=
  { fileIndex := some 0, nameIndex := 0, sourceLine := some 1,
    sourceColumn := some 1, generatedLine := 1, generatedColumn := some 1 }

/-- A source-map envelope as received by the service; `none` models an absent
key (`key in input` is `isSome`). -/
structure SourceMapInput where
  version : Option Int
  file : Option String
  sourceRoot : Option String
  sources : Option (List String)
  sourcesContent : Option (List String)
  names : Option (List String)
  mappings : Option String
deriving DecidableEq, Repr

/-- `SourceService.validateSourceMap`: all of `version`, `sources`,
`sourcesContent`, `mappings`, `names` must be present. -/
def validateSourceMap (input : SourceMapInput) : Bool :=
  input.version.isSome && input.sources.isSome && input.sourcesContent.isSome &&
    input.mappings.isSome && input.names.isSome

/-- Errors thrown by the service. -/
inductive SvcError where
  | missingRequiredKey
  | decodeError
  | emptyConcat
  | typeError
deriving DecidableEq, Repr

/-- The fields of a constructed `SourceService` instance. -/
structure SourceState where
  file : Option String
  names : List String
  sources : List String
  mappings : List Mapping
  sourcesContent : List String
  sourceRoot : Option String
deriving DecidableEq, Repr

/-- `SourceService.decodedSegment`: applies the delta vector to the shift and
appends a mapping with the given generated line. -/
def svcDecodedSegment (shift : ShiftSegment) (ds : List Int) (generatedLine : Int) :
    ShiftSegment × Mapping :=
  let generatedColumn := ds.get? 0
  let fileIndex := ds.get? 1
  let sourceLine := ds.get? 2
  let sourceColumn := ds.get? 3
  let nameIndex := ds.get? 4
  let sh := { shift with
    fileIndex := jsAddOpt shift.fileIndex fileIndex,
    nameIndex := shift.nameIndex + nameIndex.getD 0,
    sourceLine := jsAddOpt shift.sourceLine sourceLine,
    sourceColumn := jsAddOpt shift.sourceColumn sourceColumn,
    generatedColumn := jsAddOpt shift.generatedColumn generatedColumn }
  (sh,
   { nameIndex := if nameIndex.isSome then some sh.nameIndex else none,
     fileIndex := sh.fileIndex,
     sourceLine := sh.sourceLine,
     sourceColumn := sh.sourceColumn,
     generatedLine := generatedLine,
     generatedColumn := sh.generatedColumn })

/-- The inner segment loop of `SourceService.decodeMappings`: segments whose
string form has fewer than 4 characters are skipped; `decodeVLQ` may throw
(no charset validation on this path).  Errors carry the mappings pushed so
far. -/
def svcDecodeSegs : List (List Char) → ShiftSegment → Int → List Mapping →
    Except (SvcError × List Mapping) (ShiftSegment × List Mapping)
  | [], shift, _, acc => .ok (shift, acc)
  | seg :: rest, shift, gl, acc =>
    if seg.length < 4 then svcDecodeSegs rest shift gl acc
    else
      match decodeVLQchars seg with
      | none => .error (.decodeError, acc)
      | some ds =>
        let p := svcDecodedSegment shift ds gl
        svcDecodeSegs rest p.1 gl (acc ++ [p.2])

/-- The frame loop of `SourceService.decodeMappings` (`entries()` gives the
0-based generated-line index; empty frames are skipped with `continue`). -/
def svcDecodeFrames : List (List Char) → Nat → ShiftSegment → List Mapping →
    Except (SvcError × List Mapping) (List Mapping)
  | [], _, _, acc => .ok acc
  | frame :: rest, gl, shift, acc =>
    if frame.isEmpty then svcDecodeFrames rest (gl + 1) shift acc
    else
      match svcDecodeSegs (splitOnChar ',' frame) { shift with generatedColumn := some 1 }
          ((gl : Int) + shift.generatedLine) acc with
      | .error e => .error e
      | .ok (shift1, acc1) => svcDecodeFrames rest (gl + 1) shift1 acc1

/-- `SourceService.decodeMappings(encodedMappings, thresholdSegment)`, with
`this.mappings` passed and returned explicitly and the merged shift state
supplied by the caller. -/
def svcDecodeMappings (mappings : List Mapping) (encodedMappings : String)
    (shift : ShiftSegment) : Except (SvcError × List Mapping) (List Mapping) :=
  svcDecodeFrames (splitOnChar ';' encodedMappings.toList) 0 shift mappings

/-- The `SourceService` constructor: validate, initialise the envelope
fields, decode the mappings. -/
def SourceServiceNew (source : SourceMapInput) : Except SvcError SourceState :=
  if ¬ validateSourceMap source then .error .missingRequiredKey
  else
    match svcDecodeMappings [] (source.mappings.getD "") defaultShift with
    | .error _ => .error .decodeError
    | .ok ms =>
      .ok { file := source.file, names := source.names.getD [],
            sources := source.sources.getD [], mappings := ms,
            sourcesContent := source.sourcesContent.getD [],
            sourceRoot := source.sourceRoot }

/-- The body of `SourceService.concat`'s `for (const map of maps)` loop.
Note `maps0`: the source decodes `maps[0].mappings` on every iteration, not
the current map's mappings.  Errors carry the state as mutated so far. -/
def concatLoop (maps0 : SourceMapInput) : List SourceMapInput → SourceState →
    Except (SvcError × SourceState) SourceState
  | [], st => .ok st
  | m :: rest, st =>
    let st1 := { st with
      names := st.names ++ m.names.getD [],
      sources := st.sources ++ m.sources.getD [],
      sourcesContent := st.sourcesContent ++ m.sourcesContent.getD [] }
    match st1.mappings.getLast? with
    | none => .error (.typeError, st1)
    | some lastSegment =>
      match lastSegment.fileIndex with
      | none => .error (.typeError, st1)
      | some fi =>
        if 0 ≤ fi ∧ fi.toNat < st1.sourcesContent.length then
          let content := st1.sourcesContent.getD fi.toNat ""
          let lines : Int := (splitOnChar '\n' content.toList).length
          let shift := { defaultShift with
            nameIndex := (st1.names.length : Int) - 1,
            fileIndex := some ((st1.sources.length : Int) - 1),
            generatedLine := if lines < 2 then 2 else lines }
          match svcDecodeMappings st1.mappings (maps0.mappings.getD "") shift with
          | .error (e, ms) => .error (e, { st1 with mappings := ms })
          | .ok ms => concatLoop maps0 rest { st1 with mappings := ms }
        else .error (.typeError, st1)

/-- `SourceService.concat(...maps)`. -/
def concat (st : SourceState) (maps : List SourceMapInput) :
    Except (SvcError × SourceState) SourceState :=
  match maps with
  | [] => .error (.emptyConcat, st)
  | m0 :: _ => concatLoop m0 maps st

/-! ## Helper definitions for the verification layer -/

/-- The value `decodeVLQ` pushes when a digit group with carrier `x` ends
(sign bit in the lowest bit): proven equal to what `decodeStep` computes for
carriers below `2^31`. -/
def decodedTerminal (x : Nat) : Int :=
  if x % 2 = 1 then -((x / 2 : Nat) : Int) else ((x / 2 : Nat) : Int)

/-- A base64 character whose digit has the continuation bit `0x20` set. -/
def isContinuationChar (c : Char) : Bool :=
  match base64Map c with
  | some d => d &&& 32 != 0
  | none => false

/-- Strict column order on possibly-`NaN` generated columns (false if either
side is `NaN`). -/
def colLtB (a b : Option Int) : Bool :=
  match a, b with
  | some x, some y => x < y
  | _, _ => false

/-- The spec's frame invariant: segments strictly ascending by
`generatedColumn` (which in particular forces the columns of any two
comparable segments to be actual numbers). -/
def WFFrame (segs : List Segment) : Prop :=
  segs.Pairwise (fun a b => colLtB a.generatedColumn b.generatedColumn = true)

/-- First segment decoded from `"EAAA,DAAA"` (generated column 3). -/
def c2segA : Segment :=
  { line := some 1, column := some 1, nameIndex := none, sourceIndex := some 0,
    generatedLine := 1, generatedColumn := some 3 }

/-- Second segment decoded from `"EAAA,DAAA"` (generated column 2: the frame
is out of order because the second delta is negative). -/
def c2segB : Segment :=
  { line := some 1, column := some 1, nameIndex := none, sourceIndex := some 0,
    generatedLine := 1, generatedColumn := some 2 }

/-- Demo segment at generated column 5 (spec's bias-selection scenario). -/
def c3segA : Segment :=
  { line := some 1, column := some 1, nameIndex := none, sourceIndex := some 0,
    generatedLine := 1, generatedColumn := some 5 }

/-- Demo segment at generated column 10 (spec's bias-selection scenario). -/
def c3segB : Segment :=
  { line := some 1, column := some 2, nameIndex := none, sourceIndex := some 0,
    generatedLine := 1, generatedColumn := some 10 }

/-- Demo map with one frame holding `c3segA` and `c3segB`. -/
def c3map : MapType := [some [c3segA, c3segB]]

/-- The segment in the fourth frame of `"AAAA;;;AADA"`: the `D` is the
original-*line* delta, so the original column stays 1 and the original line
becomes 0. -/
def c4seg4 : Segment :=
  { line := some 0, column := some 1, nameIndex := none, sourceIndex := some 0,
    generatedLine := 4, generatedColumn := some 1 }

/-- The segment decoded by the provider from the length-2 vector `"AA"`:
`line`/`column` are `NaN` (`none`), not an error. -/
def c7seg : Segment :=
  { line := none, column := none, nameIndex := none, sourceIndex := some 0,
    generatedLine := 1, generatedColumn := some 1 }

/-- Base envelope for the `concat` scenario. -/
def c5env : SourceMapInput :=
  { version := some 3, file := none, sourceRoot := none,
    sources := some ["s0.js"], sourcesContent := some ["l1\nl2"],
    names := some [], mappings := some "AAAA" }

/-- First map passed to `concat`. -/
def c5a : SourceMapInput :=
  { version := some 3, file := none, sourceRoot := none,
    sources := some ["sa.js"], sourcesContent := some ["a1"],
    names := some ["na"], mappings := some "AAAA" }

/-- Second map passed to `concat`; its mappings differ from `c5a`'s. -/
def c5b : SourceMapInput :=
  { version := some 3, file := none, sourceRoot := none,
    sources := some ["sb.js"], sourcesContent := some ["b1"],
    names := some ["nb"], mappings := some "AACA" }

/-- Final state of `concat(a, b)` on the base service. -/
def c5oneShot : Option SourceState :=
  (SourceServiceNew c5env).toOption.bind fun st => (concat st [c5a, c5b]).toOption

/-- Final state of `concat(a); concat(b)` on the base service. -/
def c5twoShot : Option SourceState :=
  (SourceServiceNew c5env).toOption.bind fun st =>
    ((concat st [c5a]).toOption.bind fun st1 => (concat st1 [c5b]).toOption)

/-- An envelope carrying exactly `sources`, `mappings` and `names` (the three
keys the spec calls required), with `version` and `sourcesContent` absent. -/
def c6threeKeys : SourceMapInput :=
  { version := none, file := none, sourceRoot := none,
    sources := some ["s.js"], sourcesContent := none,
    names := some [], mappings := some "AAAA" }

/-! ## Position of decoded segments in the frame array -/

theorem decodeSegments_generatedLine (pieces : List (List Char)) :
    ∀ off off2 segs, decodeSegments pieces off = .ok (off2, segs) →
      off2.generatedLine = off.generatedLine ∧
      ∀ S ∈ segs, S.generatedLine = off.generatedLine + 1 := by
  induction pieces with
  | nil =>
    intro off off2 segs h
    simp only [decodeSegments] at h
    cases h
    exact ⟨rfl, by simp⟩
  | cons p rest ih =>
    intro off off2 segs h
    cases hds : decodeVLQchars p with
    | none =>
      simp only [decodeSegments, hds] at h
      exact Except.noConfusion h
    | some ds =>
      simp only [decodeSegments, hds] at h
      cases hrec : decodeSegments rest (decodedSegment off ds).1 with
      | error e =>
        simp only [hrec] at h
        exact Except.noConfusion h
      | ok r =>
        obtain ⟨o2, ss⟩ := r
        simp only [hrec] at h
        cases h
        have hih := ih _ _ _ hrec
        refine ⟨by rw [hih.1]; rfl, ?_⟩
        intro S hS
        rcases List.mem_cons.mp hS with rfl | hmem
        · rfl
        · rw [hih.2 S hmem]
          rfl

theorem decodeFrames_genLine (frames : List (List Char)) :
    ∀ (idx : Nat) (lo : Int) off acc m,
      decodeFrames frames idx lo off acc = .ok m →
      (∀ j segs S, acc.get? j = some (some segs) → S ∈ segs →
        S.generatedLine = (j : Int) + 1) →
      ((acc.length : Int) = lo + idx) →
      ∀ j segs S, m.get? j = some (some segs) → S ∈ segs →
        S.generatedLine = (j : Int) + 1 := by
  induction frames with
  | nil =>
    intro idx lo off acc m h hacc hlen
    simp only [decodeFrames] at h
    cases h
    exact hacc
  | cons f rest ih =>
    intro idx lo off acc m h hacc hlen
    simp only [decodeFrames] at h
    by_cases hfe : f.isEmpty
    · rw [if_pos hfe] at h
      refine ih (idx + 1) lo off (acc ++ [none]) m h ?_ ?_
      · intro j segs S hj hS
        rcases Nat.lt_or_ge j acc.length with hlt | hge
        · rw [List.get?_append hlt] at hj
          exact hacc j segs S hj hS
        · rw [List.get?_append_right hge] at hj
          cases hk : j - acc.length with
          | zero => rw [hk] at hj; simp at hj
          | succ k => rw [hk] at hj; simp at hj
      · simp only [List.length_append, List.length_cons, List.length_nil]
        push_cast
        omega
    · rw [if_neg hfe] at h
      cases hds : decodeSegments (splitOnChar ',' f) (frameReset off (lo + idx)) with
      | error e =>
        simp only [hds] at h
        exact Except.noConfusion h
      | ok r =>
        obtain ⟨off1, segs0⟩ := r
        simp only [hds] at h
        have hsegs := decodeSegments_generatedLine _ _ _ _ hds
        refine ih (idx + 1) lo off1 (acc ++ [some segs0]) m h ?_ ?_
        · intro j segs S hj hS
          rcases Nat.lt_or_ge j acc.length with hlt | hge
          · rw [List.get?_append hlt] at hj
            exact hacc j segs S hj hS
          · rw [List.get?_append_right hge] at hj
            cases hk : j - acc.length with
            | zero =>
              rw [hk] at hj
              simp only [List.get?] at hj
              cases hj
              have hgl := hsegs.2 S hS
              have hj0 : j = acc.length := by omega
              rw [hgl]
              subst hj0
              rw [hlen]
              show lo + (idx : Int) + 1 = _
              ring
            | succ k => rw [hk] at hj; simp at hj
        · simp only [List.length_append, List.length_cons, List.length_nil]
          push_cast
          omega

/-- Every segment emitted by a fresh string decode sits in the frame whose
index is its `generatedLine - 1`. -/
theorem decodeMappingString_genLine (m0 : MapType) (s : String) (no so : Int) (m : MapType)
    (h : decodeMappingString m0 s no so = .ok m)
    (hm0 : ∀ j segs S, m0.get? j = some (some segs) → S ∈ segs →
      S.generatedLine = (j : Int) + 1) :
    ∀ j segs S, m.get? j = some (some segs) → S ∈ segs →
      S.generatedLine = (j : Int) + 1 := by
  unfold decodeMappingString at h
  by_cases hv : validateMappingString s = true
  · rw [if_neg (not_not_intro hv)] at h
    exact decodeFrames_genLine _ 0 (m0.length) _ m0 m h hm0 (by push_cast; ring)
  · rw [if_pos hv] at h
    cases h

/-! ## Binary-search lemmas for `getSegment` -/

theorem colLtB_some {a b : Option Int} (h : colLtB a b = true) :
    ∃ x y, a = some x ∧ b = some y ∧ x < y := by
  cases a with
  | none => simp [colLtB] at h
  | some x =>
    cases b with
    | none => simp [colLtB] at h
    | some y =>
      refine ⟨x, y, rfl, rfl, ?_⟩
      simpa [colLtB] using h

theorem wf_colLt (segs : List Segment) (hwf : WFFrame segs) {i j : Nat} {a b : Segment}
    (hij : i < j) (hi : segs.get? i = some a) (hj : segs.get? j = some b) :
    ∃ x y, a.generatedColumn = some x ∧ b.generatedColumn = some y ∧ x < y := by
  rcases List.get?_eq_some.mp hi with ⟨hi', hia⟩
  rcases List.get?_eq_some.mp hj with ⟨hj', hjb⟩
  have hp := List.pairwise_iff_get.mp hwf ⟨i, hi'⟩ ⟨j, hj'⟩ (by simpa using hij)
  rw [hia, hjb] at hp
  exact colLtB_some hp

theorem jsLtOpt_true {a : Option Int} {t : Int} (h : jsLtOpt a t = true) :
    ∃ x, a = some x ∧ x < t := by
  cases a with
  | none => simp [jsLtOpt] at h
  | some x => exact ⟨x, rfl, by simpa [jsLtOpt] using h⟩

theorem jsGtOpt_true {a : Option Int} {t : Int} (h : jsGtOpt a t = true) :
    ∃ x, a = some x ∧ t < x := by
  cases a with
  | none => simp [jsGtOpt] at h
  | some x => exact ⟨x, rfl, by simpa [jsGtOpt] using h⟩

theorem jsLtOpt_of {x t : Int} (h : x < t) : jsLtOpt (some x) t = true := by
  simpa [jsLtOpt] using h

theorem jsGtOpt_of {x t : Int} (h : t < x) : jsGtOpt (some x) t = true := by
  simpa [jsGtOpt] using h

theorem some_eq_of_not_cmp {x t : Int} (h1 : ¬ jsLtOpt (some x) t = true)
    (h2 : ¬ jsGtOpt (some x) t = true) : x = t := by
  simp [jsLtOpt] at h1
  simp [jsGtOpt] at h2
  omega

/-- Exact hit: if some index in the window holds a segment whose column equals
the target, the loop returns it, whatever the bias and the candidate. -/
theorem getSegmentLoop_exact (segs : List Segment) (t : Int) (bias : Bias)
    (hwf : WFFrame segs) :
    ∀ (fuel low : Nat) (high : Int) (closest : Option Segment) (i : Nat) (S : Segment),
      segs.get? i = some S → S.generatedColumn = some t →
      (low : Int) ≤ (i : Int) → (i : Int) ≤ high → high < segs.length →
      high - low + 1 ≤ fuel →
      getSegmentLoop segs t bias fuel low high closest = some S := by
  intro fuel
  induction fuel with
  | zero =>
    intro low high closest i S hi hcol h1 h2 h3 hf
    exfalso
    omega
  | succ fuel ih =>
    intro low high closest i S hi hcol h1 h2 h3 hf
    have hlh : (low : Int) ≤ high := le_trans h1 h2
    have h0 : (0 : Int) ≤ high := le_trans (by positivity) hlh
    simp only [getSegmentLoop]
    rw [if_pos hlh]
    have hmlow : low ≤ (low + high.toNat) / 2 := by omega
    have hmhigh : (((low + high.toNat) / 2 : Nat) : Int) ≤ high := by omega
    have hmlt : (low + high.toNat) / 2 < segs.length := by omega
    obtain ⟨segmid, hsegmid⟩ : ∃ x, segs.get? ((low + high.toNat) / 2) = some x :=
      ⟨_, List.get?_eq_get hmlt⟩
    simp only [hsegmid]
    by_cases hlt : jsLtOpt segmid.generatedColumn t = true
    · rw [if_pos hlt]
      rcases jsLtOpt_true hlt with ⟨x, hx, hxt⟩
      have hmidi : (low + high.toNat) / 2 < i := by
        by_contra hcon
        rcases Nat.lt_or_ge i ((low + high.toNat) / 2) with hlt' | hge
        · rcases wf_colLt segs hwf hlt' hi hsegmid with ⟨u, v, hu, hv, huv⟩
          rw [hcol] at hu
          rw [hx] at hv
          cases hu
          cases hv
          omega
        · have : i = (low + high.toNat) / 2 := by omega
          subst this
          rw [hi] at hsegmid
          cases hsegmid
          rw [hcol] at hx
          cases hx
          omega
      exact ih ((low + high.toNat) / 2 + 1) high _ i S hi hcol (by push_cast; omega) h2 h3
        (by omega)
    · rw [if_neg hlt]
      by_cases hgt : jsGtOpt segmid.generatedColumn t = true
      · rw [if_pos hgt]
        rcases jsGtOpt_true hgt with ⟨x, hx, hxt⟩
        have hmidi : i < (low + high.toNat) / 2 := by
          by_contra hcon
          rcases Nat.lt_or_ge ((low + high.toNat) / 2) i with hlt' | hge
          · rcases wf_colLt segs hwf hlt' hsegmid hi with ⟨u, v, hu, hv, huv⟩
            rw [hcol] at hv
            rw [hx] at hu
            cases hu
            cases hv
            omega
          · have : i = (low + high.toNat) / 2 := by omega
            subst this
            rw [hi] at hsegmid
            cases hsegmid
            rw [hcol] at hx
            cases hx
            omega
        exact ih low ((((low + high.toNat) / 2 : Nat) : Int) - 1) _ i S hi hcol h1
          (by push_cast; omega) (by omega) (by omega)
      · rw [if_neg hgt]
        have hmideq : (low + high.toNat) / 2 = i := by
          by_contra hne
          rcases Nat.lt_or_ge ((low + high.toNat) / 2) i with hlt' | hge
          · rcases wf_colLt segs hwf hlt' hsegmid hi with ⟨u, v, hu, hv, huv⟩
            rw [hcol] at hv
            cases hv
            exact hlt (by rw [hu]; exact jsLtOpt_of huv)
          · have hgt' : i < (low + high.toNat) / 2 := by omega
            rcases wf_colLt segs hwf hgt' hi hsegmid with ⟨u, v, hu, hv, huv⟩
            rw [hcol] at hu
            cases hu
            exact hgt (by rw [hv]; exact jsGtOpt_of huv)
        subst hmideq
        rw [hi] at hsegmid
        cases hsegmid
        rfl

/-- Position of the probe relative to a gap `col i < t < col (i+1)`: a probe
left of the gap compares less-than, right of it greater-than, and no probe
compares equal. -/
theorem gap_probe (segs : List Segment) (t : Int) (hwf : WFFrame segs)
    {i : Nat} {s1 s2 : Segment} {c1 c2 : Int}
    (hi : segs.get? i = some s1) (hi1 : segs.get? (i + 1) = some s2)
    (hc1 : s1.generatedColumn = some c1) (hc2 : s2.generatedColumn = some c2)
    (hlt1 : c1 < t) (hlt2 : t < c2)
    {m : Nat} {sm : Segment} (hm : segs.get? m = some sm) :
    (m ≤ i → jsLtOpt sm.generatedColumn t = true) ∧
    (i + 1 ≤ m → jsGtOpt sm.generatedColumn t = true) := by
  constructor
  · intro hmi
    rcases Nat.lt_or_ge m i with hlt' | hge
    · rcases wf_colLt segs hwf hlt' hm hi with ⟨u, v, hu, hv, huv⟩
      rw [hc1] at hv
      cases hv
      rw [hu]
      exact jsLtOpt_of (by omega)
    · have : m = i := by omega
      subst this
      rw [hm] at hi
      cases hi
      rw [hc1]
      exact jsLtOpt_of hlt1
  · intro hmi
    rcases Nat.lt_or_ge (i + 1) m with hlt' | hge
    · rcases wf_colLt segs hwf hlt' hi1 hm with ⟨u, v, hu, hv, huv⟩
      rw [hc2] at hu
      cases hu
      rw [hv]
      exact jsGtOpt_of (by omega)
    · have : m = i + 1 := by omega
      subst this
      rw [hm] at hi1
      cases hi1
      rw [hc2]
      exact jsGtOpt_of hlt2

/-- `FLOOR` miss inside a gap: the loop returns the left neighbour.  The
`closest` argument carries the loop invariant: it is the segment just left of
the window (or `none` when the window still starts at 0). -/
theorem getSegmentLoop_floor (segs : List Segment) (t : Int) (hwf : WFFrame segs) :
    ∀ (fuel low : Nat) (high : Int) (closest : Option Segment)
      (i : Nat) (s1 s2 : Segment) (c1 c2 : Int),
      segs.get? i = some s1 → segs.get? (i + 1) = some s2 →
      s1.generatedColumn = some c1 → s2.generatedColumn = some c2 →
      c1 < t → t < c2 →
      (low : Int) ≤ (i : Int) + 1 → (i : Int) ≤ high → high < segs.length →
      closest = (if low = 0 then none else segs.get? (low - 1)) →
      high - low + 1 ≤ fuel →
      getSegmentLoop segs t Bias.LOWER_BOUND fuel low high closest = some s1 := by
  intro fuel
  induction fuel with
  | zero =>
    intro low high closest i s1 s2 c1 c2 hi hi1 hc1 hc2 hlt1 hlt2 hlow hhigh hlen hcl hf
    have hloweq : low = i + 1 := by omega
    simp only [getSegmentLoop]
    rw [hcl, if_neg (by omega), hloweq]
    simpa using hi
  | succ fuel ih =>
    intro low high closest i s1 s2 c1 c2 hi hi1 hc1 hc2 hlt1 hlt2 hlow hhigh hlen hcl hf
    simp only [getSegmentLoop]
    by_cases hguard : (low : Int) ≤ high
    · rw [if_pos hguard]
      have h0 : (0 : Int) ≤ high := le_trans (by positivity) hguard
      have hmlow : low ≤ (low + high.toNat) / 2 := by omega
      have hmhigh : (((low + high.toNat) / 2 : Nat) : Int) ≤ high := by omega
      have hmlt : (low + high.toNat) / 2 < segs.length := by omega
      obtain ⟨segmid, hsegmid⟩ : ∃ x, segs.get? ((low + high.toNat) / 2) = some x :=
        ⟨_, List.get?_eq_get hmlt⟩
      simp only [hsegmid]
      have hprobe := gap_probe segs t hwf hi hi1 hc1 hc2 hlt1 hlt2 hsegmid
      by_cases hlt : jsLtOpt segmid.generatedColumn t = true
      · rw [if_pos hlt]
        have hmidi : (low + high.toNat) / 2 ≤ i := by
          by_contra hcon
          have := hprobe.2 (by omega)
          rcases jsGtOpt_true this with ⟨x, hx, hxt⟩
          rcases jsLtOpt_true hlt with ⟨y, hy, hyt⟩
          rw [hx] at hy
          cases hy
          omega
        refine ih ((low + high.toNat) / 2 + 1) high _ i s1 s2 c1 c2 hi hi1 hc1 hc2
          hlt1 hlt2 (by push_cast; omega) hhigh hlen ?_ (by omega)
        rw [if_pos trivial, if_neg (by omega)]
        simpa using hsegmid.symm
      · rw [if_neg hlt]
        by_cases hgt : jsGtOpt segmid.generatedColumn t = true
        · rw [if_pos hgt]
          have hmidi : i + 1 ≤ (low + high.toNat) / 2 := by
            by_contra hcon
            have := hprobe.1 (by omega)
            exact hlt this
          refine ih low ((((low + high.toNat) / 2 : Nat) : Int) - 1) _ i s1 s2 c1 c2 hi hi1
            hc1 hc2 hlt1 hlt2 hlow (by push_cast; omega) (by omega) ?_ (by omega)
          rw [if_neg (by decide)]
          exact hcl
        · exfalso
          rcases le_or_lt ((low + high.toNat) / 2) i with hle | hgt'
          · exact hlt (hprobe.1 hle)
          · exact hgt (hprobe.2 (by omega))
    · rw [if_neg hguard]
      have hloweq : low = i + 1 := by omega
      rw [hcl, if_neg (by omega), hloweq]
      simpa using hi

/-- `CEILING` miss inside a gap: the loop returns the right neighbour.  Here
`closest` is the segment just right of the window (or `none` when the window
still ends at the last index). -/
theorem getSegmentLoop_ceil (segs : List Segment) (t : Int) (hwf : WFFrame segs) :
    ∀ (fuel low : Nat) (high : Int) (closest : Option Segment)
      (i : Nat) (s1 s2 : Segment) (c1 c2 : Int),
      segs.get? i = some s1 → segs.get? (i + 1) = some s2 →
      s1.generatedColumn = some c1 → s2.generatedColumn = some c2 →
      c1 < t → t < c2 →
      (low : Int) ≤ (i : Int) + 1 → (i : Int) ≤ high → high < segs.length →
      closest = (if high = (segs.length : Int) - 1 then none
        else segs.get? (high + 1).toNat) →
      high - low + 1 ≤ fuel →
      getSegmentLoop segs t Bias.UPPER_BOUND fuel low high closest = some s2 := by
  intro fuel
  induction fuel with
  | zero =>
    intro low high closest i s1 s2 c1 c2 hi hi1 hc1 hc2 hlt1 hlt2 hlow hhigh hlen hcl hf
    have hhigheq : high = (i : Int) := by omega
    have hi1len : i + 1 < segs.length := (List.get?_eq_some.mp hi1).1
    simp only [getSegmentLoop]
    rw [hcl, if_neg (by omega), hhigheq]
    rw [show ((i : Int) + 1).toNat = i + 1 by omega]
    exact hi1
  | succ fuel ih =>
    intro low high closest i s1 s2 c1 c2 hi hi1 hc1 hc2 hlt1 hlt2 hlow hhigh hlen hcl hf
    have hi1len : i + 1 < segs.length := (List.get?_eq_some.mp hi1).1
    simp only [getSegmentLoop]
    by_cases hguard : (low : Int) ≤ high
    · rw [if_pos hguard]
      have h0 : (0 : Int) ≤ high := le_trans (by positivity) hguard
      have hmlow : low ≤ (low + high.toNat) / 2 := by omega
      have hmhigh : (((low + high.toNat) / 2 : Nat) : Int) ≤ high := by omega
      have hmlt : (low + high.toNat) / 2 < segs.length := by omega
      obtain ⟨segmid, hsegmid⟩ : ∃ x, segs.get? ((low + high.toNat) / 2) = some x :=
        ⟨_, List.get?_eq_get hmlt⟩
      simp only [hsegmid]
      have hprobe := gap_probe segs t hwf hi hi1 hc1 hc2 hlt1 hlt2 hsegmid
      by_cases hlt : jsLtOpt segmid.generatedColumn t = true
      · rw [if_pos hlt]
        have hmidi : (low + high.toNat) / 2 ≤ i := by
          by_contra hcon
          have := hprobe.2 (by omega)
          rcases jsGtOpt_true this with ⟨x, hx, hxt⟩
          rcases jsLtOpt_true hlt with ⟨y, hy, hyt⟩
          rw [hx] at hy
          cases hy
          omega
        refine ih ((low + high.toNat) / 2 + 1) high _ i s1 s2 c1 c2 hi hi1 hc1 hc2
          hlt1 hlt2 (by push_cast; omega) hhigh hlen ?_ (by omega)
        rw [if_neg (by decide)]
        exact hcl
      · rw [if_neg hlt]
        by_cases hgt : jsGtOpt segmid.generatedColumn t = true
        · rw [if_pos hgt]
          have hmidi : i + 1 ≤ (low + high.toNat) / 2 := by
            by_contra hcon
            exact hlt (hprobe.1 (by omega))
          refine ih low ((((low + high.toNat) / 2 : Nat) : Int) - 1) _ i s1 s2 c1 c2 hi hi1
            hc1 hc2 hlt1 hlt2 hlow (by push_cast; omega) (by omega) ?_ (by omega)
          rw [if_pos trivial, if_neg (by omega)]
          rw [show ((((low + high.toNat) / 2 : Nat) : Int) - 1 + 1).toNat
              = (low + high.toNat) / 2 by omega]
          exact hsegmid.symm
        · exfalso
          rcases le_or_lt ((low + high.toNat) / 2) i with hle | hgt'
          · exact hlt (hprobe.1 hle)
          · exact hgt (hprobe.2 (by omega))
    · rw [if_neg hguard]
      have hhigheq : high = (i : Int) := by omega
      rw [hcl, if_neg (by omega), hhigheq]
      rw [show ((i : Int) + 1).toNat = i + 1 by omega]
      exact hi1

/-- `EXACT` miss inside a gap: the loop returns `none` (the candidate is never
updated for `Bias.BOUND`). -/
theorem getSegmentLoop_bound_gap (segs : List Segment) (t : Int) (hwf : WFFrame segs) :
    ∀ (fuel low : Nat) (high : Int)
      (i : Nat) (s1 s2 : Segment) (c1 c2 : Int),
      segs.get? i = some s1 → segs.get? (i + 1) = some s2 →
      s1.generatedColumn = some c1 → s2.generatedColumn = some c2 →
      c1 < t → t < c2 →
      high < segs.length →
      getSegmentLoop segs t Bias.BOUND fuel low high none = none := by
  intro fuel
  induction fuel with
  | zero =>
    intro low high i s1 s2 c1 c2 hi hi1 hc1 hc2 hlt1 hlt2 hlen
    simp only [getSegmentLoop]
  | succ fuel ih =>
    intro low high i s1 s2 c1 c2 hi hi1 hc1 hc2 hlt1 hlt2 hlen
    simp only [getSegmentLoop]
    by_cases hguard : (low : Int) ≤ high
    · rw [if_pos hguard]
      have h0 : (0 : Int) ≤ high := le_trans (by positivity) hguard
      have hmhigh : (((low + high.toNat) / 2 : Nat) : Int) ≤ high := by omega
      have hmlt : (low + high.toNat) / 2 < segs.length := by omega
      obtain ⟨segmid, hsegmid⟩ : ∃ x, segs.get? ((low + high.toNat) / 2) = some x :=
        ⟨_, List.get?_eq_get hmlt⟩
      simp only [hsegmid]
      have hprobe := gap_probe segs t hwf hi hi1 hc1 hc2 hlt1 hlt2 hsegmid
      by_cases hlt : jsLtOpt segmid.generatedColumn t = true
      · rw [if_pos hlt]
        rw [if_neg (by decide)]
        exact ih _ _ i s1 s2 c1 c2 hi hi1 hc1 hc2 hlt1 hlt2 hlen
      · rw [if_neg hlt]
        by_cases hgt : jsGtOpt segmid.generatedColumn t = true
        · rw [if_pos hgt]
          rw [if_neg (by decide)]
          exact ih _ _ i s1 s2 c1 c2 hi hi1 hc1 hc2 hlt1 hlt2 (by omega)
        · exfalso
          rcases le_or_lt ((low + high.toNat) / 2) i with hle | hgt'
          · exact hlt (hprobe.1 hle)
          · exact hgt (hprobe.2 (by omega))
    · rw [if_neg hguard]

/-- `getSegment` on a well-formed frame finds any exact column match,
whatever the bias. -/
theorem getSegment_exact (m : MapType) (L : Int) (segs : List Segment)
    (hL : 1 ≤ L) (hframe : m.get? (L - 1).toNat = some (some segs)) (hwf : WFFrame segs)
    (S : Segment) (hS : S ∈ segs) (c : Int) (hcol : S.generatedColumn = some c)
    (bias : Bias) : getSegment m L c bias = some S := by
  obtain ⟨⟨i, hilen⟩, hig⟩ := List.mem_iff_get.mp hS
  have hi : segs.get? i = some S := by rw [List.get?_eq_get hilen, hig]
  simp only [getSegment]
  rw [if_neg (by omega), hframe]
  show (if segs.length = 0 then none
    else getSegmentLoop segs c bias segs.length 0 ((segs.length : Int) - 1) none) = some S
  rw [if_neg (by omega)]
  exact getSegmentLoop_exact segs c bias hwf segs.length 0 ((segs.length : Int) - 1)
    none i S hi hcol (by positivity) (by omega) (by omega) (by omega)

/-- `getSegment` on a well-formed frame, queried strictly between two adjacent
segments: `LOWER_BOUND` returns the left one, `UPPER_BOUND` the right one,
`BOUND` returns `none`. -/
theorem getSegment_gap (m : MapType) (L : Int) (segs : List Segment)
    (hL : 1 ≤ L) (hframe : m.get? (L - 1).toNat = some (some segs)) (hwf : WFFrame segs)
    (i : Nat) (s1 s2 : Segment) (c1 c2 t : Int)
    (hi : segs.get? i = some s1) (hi1 : segs.get? (i + 1) = some s2)
    (hc1 : s1.generatedColumn = some c1) (hc2 : s2.generatedColumn = some c2)
    (hlt1 : c1 < t) (hlt2 : t < c2) :
    getSegment m L t Bias.LOWER_BOUND = some s1 ∧
    getSegment m L t Bias.UPPER_BOUND = some s2 ∧
    getSegment m L t Bias.BOUND = none := by
  have hilen : i < segs.length := (List.get?_eq_some.mp hi).1
  have hi1len : i + 1 < segs.length := (List.get?_eq_some.mp hi1).1
  refine ⟨?_, ?_, ?_⟩ <;>
    · simp only [getSegment]
      rw [if_neg (by omega), hframe]
      first
      | · show (if segs.length = 0 then none
            else getSegmentLoop segs t Bias.LOWER_BOUND segs.length 0
              ((segs.length : Int) - 1) none) = some s1
          rw [if_neg (by omega)]
          refine getSegmentLoop_floor segs t hwf segs.length 0 ((segs.length : Int) - 1)
            none i s1 s2 c1 c2 hi hi1 hc1 hc2 hlt1 hlt2 (by push_cast; omega)
            (by omega) (by omega) (by rw [if_pos rfl]) (by omega)
      | · show (if segs.length = 0 then none
            else getSegmentLoop segs t Bias.UPPER_BOUND segs.length 0
              ((segs.length : Int) - 1) none) = some s2
          rw [if_neg (by omega)]
          refine getSegmentLoop_ceil segs t hwf segs.length 0 ((segs.length : Int) - 1)
            none i s1 s2 c1 c2 hi hi1 hc1 hc2 hlt1 hlt2 (by push_cast; omega)
            (by omega) (by omega) (by rw [if_pos rfl]) (by omega)
      | · show (if segs.length = 0 then none
            else getSegmentLoop segs t Bias.BOUND segs.length 0
              ((segs.length : Int) - 1) none) = none
          rw [if_neg (by omega)]
          exact getSegmentLoop_bound_gap segs t hwf segs.length 0 ((segs.length : Int) - 1)
            i s1 s2 c1 c2 hi hi1 hc1 hc2 hlt1 hlt2 (by omega)

theorem wfPair (a b : Segment) (h : colLtB a.generatedColumn b.generatedColumn = true) :
    WFFrame [a, b] := by
  unfold WFFrame
  refine List.Pairwise.cons ?_ (List.pairwise_singleton _ _)
  intro x hx
  rcases List.mem_singleton.mp hx with rfl
  exact h

theorem wfSingleton (S : Segment) : WFFrame [S] := List.pairwise_singleton _ _

/-! ## Basic evaluations (sanity checks of the embedding) -/

example : encodeVLQ 0 = "A" := by decide
example : encodeVLQ 1 = "C" := by decide
example : encodeVLQ (-1) = "D" := by decide
example : encodeVLQ (-10) = "V" := by decide
example : encodeVLQ 18 = "kB" := by decide
example : encodeVLQ 25 = "yB" := by decide
example : encodeVLQ (-25) = "zB" := by decide
example : encodeArrayVLQ [1, 0, -5] = "CAL" := by decide
example : decodeVLQ "CAL" = some [1, 0, -5] := by decide
example : encodeArrayVLQ [0, 1, -1, -18, 18, -18] = "ACDlBkBlB" := by decide
example : decodeVLQ "ACDlBkBlB" = some [0, 1, -1, -18, 18, -18] := by decide
example : decodeVLQ "g" = some [] := by decide
example : decodeVLQ (encodeVLQ 1073741824) = some [-1073741824] := by decide
example : decodeVLQ (encodeVLQ (-1073741824)) = some [1073741824] := by decide
example : decodeVLQ (encodeVLQ 1073741823) = some [1073741823] := by decide
example : decodeVLQ (encodeVLQ (-2147483648)) = some [0] := by decide
example : decodeMappingString [] "AAAA" 0 0 = .ok [some [segAAAA]] := by decide
example : getSegment [some [segAAAA]] 1 1 Bias.BOUND = some segAAAA := by decide
example : decodeMappingString [] "AAAA;;;AADA" 0 0 =
    .ok [some [segAAAA], none, none,
         some [{ line := some 0, column := some 1, nameIndex := none,
                 sourceIndex := some 0, generatedLine := 4, generatedColumn := some 1 }]] := by
  decide
example : decodeMappingString [] "AA" 0 0 =
    .ok [some [{ line := none, column := none, nameIndex := none,
                 sourceIndex := some 0, generatedLine := 1, generatedColumn := some 1 }]] := by
  decide
example : decodeMappingString [] "" 0 0 = .error (.invalidFormat, []) := by decide
example : decodeMappingString [] "AAAA;A!AA" 0 0 = .error (.invalidFormat, []) := by decide

/-! ## VLQ codec lemmas -/

theorem toUint32_coe (n : Nat) (h : n < 4294967296) : toUint32 (n : Int) = n := by
  unfold toUint32
  omega

theorem toInt32_coe (n : Nat) (h : n < 2147483648) : toInt32 (n : Int) = n := by
  simp only [toInt32]
  split <;> omega

theorem jsShl_zero_left (s : Int) : jsShl 0 s = 0 := by
  simp [jsShl, toUint32, toInt32]

theorem jsShl_small (d s : Nat) (hs : s < 32) (h : d * 2 ^ s < 2147483648) :
    jsShl (d : Int) (s : Int) = ((d * 2 ^ s : Nat) : Int) := by
  have hd32 : d < 4294967296 := by
    have h1 : 1 ≤ 2 ^ s := Nat.one_le_two_pow
    nlinarith
  unfold jsShl
  rw [toUint32_coe d hd32, toUint32_coe s (by omega), Nat.mod_eq_of_lt hs]
  rw [show ((d : Nat) : Int) * 2 ^ s = ((d * 2 ^ s : Nat) : Int) by push_cast; ring]
  exact toInt32_coe _ h

theorem toUint32_one : toUint32 1 = 1 := by decide

theorem jsAnd_one (x : Nat) (h : x < 2147483648) :
    jsAnd (x : Int) 1 = ((x % 2 : Nat) : Int) := by
  unfold jsAnd
  rw [toUint32_coe x (by omega), toUint32_one, Nat.and_one_is_mod]
  exact toInt32_coe _ (by omega)

theorem jsShr_one (x : Nat) (h : x < 2147483648) :
    jsShr (x : Int) 1 = ((x / 2 : Nat) : Int) := by
  unfold jsShr
  rw [toInt32_coe x h, toUint32_one,
    show (2 : Int) ^ (1 % 32) = 2 from by norm_num,
    Int.fdiv_eq_ediv _ (by norm_num)]
  omega

theorem or32_and32 : ∀ d, d < 32 → (d ||| 32) &&& 32 = 32 := by decide
theorem or32_and31 : ∀ d, d < 32 → (d ||| 32) &&& 31 = d := by decide
theorem or32_lt64 : ∀ d, d < 32 → (d ||| 32) < 64 := by decide
theorem small_and32 : ∀ d, d < 32 → d &&& 32 = 0 := by decide
theorem small_and31 : ∀ d, d < 32 → d &&& 31 = d := by decide

theorem base64Map_getD : ∀ d, d < 64 → base64Map (base64Chars.getD d ' ') = some d := by
  decide

/-- `decodeStep` on the terminal (no-continuation) digit of a group whose
accumulated carrier is `w + v * 2 ^ s`. -/
theorem decodeStep_terminal (w v s : Nat) (acc : List Int) (hd : v < 32)
    (hb : w + v * 2 ^ s < 2147483648) :
    decodeStep { shift := (s : Int), value := (w : Int), result := acc }
        (base64Chars.getD v ' ') =
      some { shift := 0, value := 0, result := acc ++ [decodedTerminal (w + v * 2 ^ s)] } := by
  have hmap := base64Map_getD v (by omega)
  have hshl : jsShl ((v &&& 31 : Nat) : Int) (s : Int) = ((v * 2 ^ s : Nat) : Int) := by
    rw [small_and31 v hd]
    rcases Nat.eq_zero_or_pos v with h0 | hpos
    · subst h0
      simpa using jsShl_zero_left (s : Int)
    · have hs : s < 32 := by
        have h1 : 2 ^ s ≤ v * 2 ^ s := Nat.le_mul_of_pos_left _ hpos
        have h2 : 2 ^ s < 2 ^ 31 := by norm_num; omega
        have := (Nat.pow_lt_pow_iff_right (a := 2) (by norm_num)).mp h2
        omega
      exact jsShl_small v s hs (by omega)
  have hval : ((w : Int) + jsShl ((v &&& 31 : Nat) : Int) (s : Int)) =
      ((w + v * 2 ^ s : Nat) : Int) := by
    rw [hshl]; push_cast; ring
  simp only [decodeStep, hmap, small_and32 v hd, hval]
  rw [if_neg (show ¬ (((0 : Nat) != 0) = true) from by decide)]
  rw [jsAnd_one _ hb, jsShr_one _ hb]
  rcases Nat.mod_two_eq_zero_or_one (w + v * 2 ^ s) with hx | hx <;>
    · rw [hx]
      norm_num [decodedTerminal, hx]

theorem foldlM_decodeStep_cons (st st' : DecState) (c : Char) (l : List Char)
    (h : decodeStep st c = some st') :
    List.foldlM decodeStep st (c :: l) = List.foldlM decodeStep st' l := by
  rw [List.foldlM_cons, h]
  exact Option.some_bind _ _

/-- Decoding the characters that `encodeNatAux` emits for carrier `v`, starting
from shift `s`, accumulated value `w` and already-decoded results `acc`,
terminates the group with carrier `w + v * 2 ^ s`. -/
theorem decode_encodeNatAux (fuel : Nat) :
    ∀ (v w s : Nat) (acc : List Int), v ≤ fuel → w + v * 2 ^ s < 2147483648 →
      List.foldlM decodeStep { shift := (s : Int), value := (w : Int), result := acc }
          ((encodeNatAux fuel v).map (fun d => base64Chars.getD d ' ')) =
        some { shift := 0, value := 0, result := acc ++ [decodedTerminal (w + v * 2 ^ s)] } := by
  induction fuel with
  | zero =>
    intro v w s acc hv hb
    have hv0 : v = 0 := Nat.le_zero.mp hv
    subst hv0
    simp only [encodeNatAux, List.map_cons, List.map_nil, List.foldlM_cons, List.foldlM_nil]
    rw [small_and31 0 (by norm_num), decodeStep_terminal w 0 s acc (by norm_num) hb]
    rfl
  | succ fuel ih =>
    intro v w s acc hv hb
    simp only [encodeNatAux]
    have hshift5 : v >>> 5 = v / 32 := by
      rw [Nat.shiftRight_eq_div_pow]
    by_cases hnext : 0 < v >>> 5
    · rw [if_pos hnext]
      have hv32 : 32 ≤ v := by
        rw [hshift5] at hnext; omega
      have hd32 : v &&& 31 < 32 := by
        rw [show (31 : Nat) = 2 ^ 5 - 1 by norm_num, Nat.and_pow_two_sub_one_eq_mod]
        omega
      have hdigit : v &&& 31 = v % 32 := by
        rw [show (31 : Nat) = 2 ^ 5 - 1 by norm_num, Nat.and_pow_two_sub_one_eq_mod]
      have hmap := base64Map_getD ((v &&& 31) ||| 32) (or32_lt64 _ hd32)
      have hs : s < 32 := by
        have h1 : 2 ^ s ≤ v * 2 ^ s := Nat.le_mul_of_pos_left _ (by omega)
        have h2 : 2 ^ s < 2 ^ 31 := by norm_num; omega
        have := (Nat.pow_lt_pow_iff_right (a := 2) (by norm_num)).mp h2
        omega
      have hshl : jsShl (((((v &&& 31) ||| 32) &&& 31 : Nat)) : Int) (s : Int) =
          (((v &&& 31) * 2 ^ s : Nat) : Int) := by
        rw [or32_and31 _ hd32]
        rcases Nat.eq_zero_or_pos (v &&& 31) with h0 | hpos
        · rw [h0]; simpa using jsShl_zero_left (s : Int)
        · refine jsShl_small _ s hs ?_
          have hmle : (v &&& 31) * 2 ^ s ≤ v * 2 ^ s :=
            Nat.mul_le_mul_right _ (by rw [hdigit]; exact Nat.mod_le v 32)
          omega
      have key : (v &&& 31) * 2 ^ s + v >>> 5 * 2 ^ (s + 5) = v * 2 ^ s := by
        rw [hshift5, hdigit, pow_add]
        calc v % 32 * 2 ^ s + v / 32 * (2 ^ s * 2 ^ 5)
            = (v % 32 + 32 * (v / 32)) * 2 ^ s := by ring
          _ = v * 2 ^ s := by rw [Nat.mod_add_div]
      have hstate :
          ({ shift := (s : Int) + 5, value := (w : Int) + (((v &&& 31) * 2 ^ s : Nat) : Int),
             result := acc } : DecState) =
          { shift := ((s + 5 : Nat) : Int), value := ((w + (v &&& 31) * 2 ^ s : Nat) : Int),
             result := acc } := by
        have e1 : (s : Int) + 5 = ((s + 5 : Nat) : Int) := by push_cast; ring
        have e2 : (w : Int) + (((v &&& 31) * 2 ^ s : Nat) : Int) =
            ((w + (v &&& 31) * 2 ^ s : Nat) : Int) := by push_cast; ring
        rw [e1, e2]
      have hstep : decodeStep { shift := (s : Int), value := (w : Int), result := acc }
          (base64Chars.getD ((v &&& 31) ||| 32) ' ') =
          some { shift := ((s + 5 : Nat) : Int),
                 value := ((w + (v &&& 31) * 2 ^ s : Nat) : Int), result := acc } := by
        simp only [decodeStep, hmap, or32_and32 _ hd32, hshl]
        rw [if_pos (show (((32 : Nat) != 0) = true) from rfl)]
        rw [hstate]
      rw [List.map_cons, foldlM_decodeStep_cons _ _ _ _ hstep,
        ih (v >>> 5) (w + (v &&& 31) * 2 ^ s) (s + 5) acc (by rw [hshift5]; omega) (by omega)]
      have harg : w + (v &&& 31) * 2 ^ s + v >>> 5 * 2 ^ (s + 5) = w + v * 2 ^ s := by
        rw [add_assoc, key]
      rw [harg]
    · rw [if_neg hnext]
      have hv32 : v < 32 := by
        rw [hshift5] at hnext; omega
      simp only [List.map_cons, List.map_nil, List.foldlM_cons, List.foldlM_nil]
      rw [small_and31 v hv32, decodeStep_terminal w v s acc hv32 hb]
      rfl

theorem decodeVLQ_mk (l : List Char) : decodeVLQ (String.mk l) = decodeVLQchars l := rfl

/-! ## Decode validity and trailing-continuation lemmas -/

theorem decodeStep_isSome (st : DecState) (c : Char) (h : (base64Map c).isSome) :
    (decodeStep st c).isSome := by
  rcases Option.isSome_iff_exists.mp h with ⟨d, hd⟩
  simp only [decodeStep, hd]
  split <;> simp

theorem foldlM_decodeStep_isSome (l : List Char) :
    ∀ st : DecState, (∀ c ∈ l, (base64Map c).isSome) →
      (List.foldlM decodeStep st l).isSome := by
  induction l with
  | nil => intro st _; simp [List.foldlM_nil]
  | cons c rest ih =>
    intro st h
    have hc := h c (List.mem_cons_self c rest)
    rcases Option.isSome_iff_exists.mp (decodeStep_isSome st c hc) with ⟨st', hst⟩
    rw [foldlM_decodeStep_cons st st' c rest hst]
    exact ih st' (fun x hx => h x (List.mem_cons_of_mem c hx))

theorem decodeStep_continuation (st : DecState) (c : Char) (d : Nat)
    (hm : base64Map c = some d) (h : (d &&& 32 != 0) = true) :
    decodeStep st c =
      some { shift := st.shift + 5,
             value := st.value + jsShl ((d &&& 31 : Nat) : Int) st.shift,
             result := st.result } := by
  simp only [decodeStep, hm]
  rw [if_pos h]

theorem foldlM_decodeStep_continuations (u : List Char) :
    ∀ st : DecState, (∀ c ∈ u, isContinuationChar c = true) →
      ∃ st' : DecState, List.foldlM decodeStep st u = some st' ∧ st'.result = st.result := by
  induction u with
  | nil => intro st _; exact ⟨st, by simp [List.foldlM_nil], rfl⟩
  | cons c rest ih =>
    intro st h
    have hc := h c (List.mem_cons_self c rest)
    unfold isContinuationChar at hc
    rcases hm : base64Map c with _ | d
    · rw [hm] at hc; simp at hc
    · rw [hm] at hc
      rw [foldlM_decodeStep_cons _ _ _ _ (decodeStep_continuation st c d hm hc)]
      rcases ih _ (fun x hx => h x (List.mem_cons_of_mem c hx)) with ⟨st', h1, h2⟩
      exact ⟨st', h1, h2⟩

theorem decodeVLQchars_isSome (l : List Char) (h : ∀ c ∈ l, (base64Map c).isSome) :
    (decodeVLQchars l).isSome := by
  unfold decodeVLQchars
  rcases Option.isSome_iff_exists.mp
      (foldlM_decodeStep_isSome l ⟨0, 0, []⟩ h) with ⟨st, hst⟩
  simp [hst]

/-! ## Charset lemmas for the mapping decode path -/

theorem splitOnChar_mem (sep : Char) (l : List Char) :
    ∀ piece ∈ splitOnChar sep l, ∀ c ∈ piece, c ∈ l ∧ c ≠ sep := by
  induction l with
  | nil =>
    intro piece hp c hc
    simp only [splitOnChar, List.mem_singleton] at hp
    subst hp
    simp at hc
  | cons a rest ih =>
    intro piece hp c hc
    simp only [splitOnChar] at hp
    by_cases ha : a = sep
    · rw [if_pos ha] at hp
      rcases List.mem_cons.mp hp with rfl | hpt
      · simp at hc
      · have := ih piece hpt c hc
        exact ⟨List.mem_cons_of_mem a this.1, this.2⟩
    · rw [if_neg ha] at hp
      cases hsplit : splitOnChar sep rest with
      | nil =>
        rw [hsplit] at hp
        simp only [List.mem_singleton] at hp
        subst hp
        rcases List.mem_singleton.mp hc with rfl
        exact ⟨List.mem_cons_self c rest, ha⟩
      | cons hd tl =>
        rw [hsplit] at hp
        rcases List.mem_cons.mp hp with rfl | hpt
        · rcases List.mem_cons.mp hc with rfl | hch
          · exact ⟨List.mem_cons_self c rest, ha⟩
          · have := ih hd (by rw [hsplit]; exact List.mem_cons_self hd tl) c hch
            exact ⟨List.mem_cons_of_mem a this.1, this.2⟩
        · have := ih piece (by rw [hsplit]; exact List.mem_cons_of_mem hd hpt) c hc
          exact ⟨List.mem_cons_of_mem a this.1, this.2⟩

theorem findIdx?_isSome_of_mem (c : Char) : ∀ (l : List Char) (i : Nat), c ∈ l →
    (List.findIdx? (fun x => x == c) l i).isSome := by
  intro l
  induction l with
  | nil => intro i h; simp at h
  | cons x xs ih =>
    intro i h
    rw [List.findIdx?_cons]
    by_cases hx : (x == c) = true
    · rw [if_pos hx]; simp
    · rw [if_neg hx]
      have hmem : c ∈ xs := by
        rcases List.mem_cons.mp h with rfl | hxs
        · simp at hx
        · exact hxs
      exact ih (i + 1) hmem

theorem isMappingChar_base64 (c : Char) (h : isMappingChar c = true)
    (h1 : c ≠ ',') (h2 : c ≠ ';') : (base64Map c).isSome := by
  unfold isMappingChar at h
  simp only [Bool.or_eq_true, beq_iff_eq] at h
  rcases h with ((hmem | rfl) | rfl)
  · exact findIdx?_isSome_of_mem c base64Chars 0 (by simpa using hmem)
  · exact absurd rfl h1
  · exact absurd rfl h2

theorem decodeSegments_ok (pieces : List (List Char)) :
    ∀ off, (∀ p ∈ pieces, ∀ c ∈ p, (base64Map c).isSome) →
      ∃ r, decodeSegments pieces off = .ok r := by
  induction pieces with
  | nil => intro off _; exact ⟨_, rfl⟩
  | cons p rest ih =>
    intro off h
    have hp : (decodeVLQchars p).isSome :=
      decodeVLQchars_isSome p (h p (List.mem_cons_self p rest))
    rcases Option.isSome_iff_exists.mp hp with ⟨ds, hds⟩
    simp only [decodeSegments, hds]
    rcases ih (decodedSegment off ds).1
        (fun q hq c hc => h q (List.mem_cons_of_mem p hq) c hc) with ⟨⟨off2, segs⟩, hr⟩
    rw [hr]
    exact ⟨_, rfl⟩

theorem decodeFrames_ok (frames : List (List Char)) :
    ∀ idx lo off acc, (∀ f ∈ frames, ∀ c ∈ f, isMappingChar c = true ∧ c ≠ ';') →
      ∃ r, decodeFrames frames idx lo off acc = .ok r := by
  induction frames with
  | nil => intro idx lo off acc _; exact ⟨_, rfl⟩
  | cons f rest ih =>
    intro idx lo off acc h
    simp only [decodeFrames]
    by_cases hfe : f.isEmpty
    · rw [if_pos hfe]
      exact ih (idx + 1) lo off (acc ++ [none])
        (fun g hg => h g (List.mem_cons_of_mem f hg))
    · rw [if_neg hfe]
      have hpieces : ∀ p ∈ splitOnChar ',' f, ∀ c ∈ p, (base64Map c).isSome := by
        intro p hp c hc
        have hmem := splitOnChar_mem ',' f p hp c hc
        have hf := h f (List.mem_cons_self f rest) c hmem.1
        exact isMappingChar_base64 c hf.1 hmem.2 hf.2
      rcases decodeSegments_ok _ _ hpieces with ⟨⟨off1, segs⟩, hr⟩
      rw [hr]
      exact ih (idx + 1) lo off1 (acc ++ [some segs])
        (fun g hg => h g (List.mem_cons_of_mem f hg))

/-- Round-trip of the VLQ codec on the interval where the 32-bit shifts do not
overflow: all integers of magnitude below `2^30`. -/
theorem vlq_roundtrip (n : Int) (h1 : -1073741824 < n) (h2 : n < 1073741824) :
    decodeVLQ (encodeVLQ n) = some [n] := by
  simp only [encodeVLQ]
  rw [decodeVLQ_mk]
  unfold decodeVLQchars encodeNat
  by_cases hn : n < 0
  · rw [if_pos hn]
    set m : Nat := (-n).toNat with hm
    have hnm : ((m : Int)) = -n := Int.toNat_of_nonneg (by omega)
    have hm30 : m < 1073741824 := by omega
    have hshl : jsShl (-n) 1 = ((m * 2 : Nat) : Int) := by
      rw [show (-n) = ((m : Nat) : Int) by omega, show (1 : Int) = ((1 : Nat) : Int) by norm_num,
        jsShl_small m 1 (by norm_num) (by norm_num; omega)]
      norm_num
    rw [hshl, show (((m * 2 : Nat) : Int) + 1) = ((m * 2 + 1 : Nat) : Int) by push_cast; ring,
      toUint32_coe _ (by omega)]
    have hdec := decode_encodeNatAux (m * 2 + 1) (m * 2 + 1) 0 0 [] le_rfl (by omega)
    simp only [Nat.cast_zero, pow_zero, Nat.mul_one, mul_one, Nat.zero_add, zero_add,
      List.nil_append] at hdec
    rw [hdec, Option.map_some']
    have hodd : (m * 2 + 1) % 2 = 1 := by omega
    have hdiv : (m * 2 + 1) / 2 = m := by omega
    rw [show decodedTerminal (m * 2 + 1) = n from by
      rw [decodedTerminal, if_pos hodd, hdiv]; omega]
  · rw [if_neg hn]
    set m : Nat := n.toNat with hm
    have hnm : ((m : Int)) = n := Int.toNat_of_nonneg (by omega)
    have hm30 : m < 1073741824 := by omega
    have hshl : jsShl n 1 = ((m * 2 : Nat) : Int) := by
      rw [show n = ((m : Nat) : Int) by omega, show (1 : Int) = ((1 : Nat) : Int) by norm_num,
        jsShl_small m 1 (by norm_num) (by norm_num; omega)]
      norm_num
    rw [hshl, toUint32_coe _ (by omega)]
    have hdec := decode_encodeNatAux (m * 2) (m * 2) 0 0 [] le_rfl (by omega)
    simp only [Nat.cast_zero, pow_zero, Nat.mul_one, mul_one, Nat.zero_add, zero_add,
      List.nil_append] at hdec
    rw [hdec, Option.map_some']
    have heven : (m * 2) % 2 = 0 := by omega
    have hdiv : (m * 2) / 2 = m := by omega
    rw [show decodedTerminal (m * 2) = n from by
      rw [decodedTerminal, if_neg (by omega), hdiv]; omega]

/-! ## Claim theorems -/

/-- C1 (counterexample): the round-trip claim fails inside `[-2^31, 2^31)`:
at `n = 2^30` the 32-bit left shift overflows and the decoder returns
`[-2^30]`. -/
theorem c1_counterexample :
    decodeVLQ (encodeVLQ 1073741824) = some [-1073741824] ∧
    decodeVLQ (encodeVLQ 1073741824) ≠ some [1073741824] ∧
    (-2147483648 : Int) ≤ 1073741824 ∧ (1073741824 : Int) < 2147483648 := by
  refine ⟨by decide, by decide, by decide, by decide⟩

/-- C1 (amended): `decodeVLQ(encodeVLQ(n)) = [n]` for every integer of
magnitude at most `2^30 - 1`; outside that interval the `<< 1` of the carrier
overflows 32 bits. -/
theorem c1_roundtrip (n : Int) (h1 : -1073741824 < n) (h2 : n < 1073741824) :
    decodeVLQ (encodeVLQ n) = some [n] :=
  vlq_roundtrip n h1 h2

/-- C1 witness: the amended round-trip at `n = 3`. -/
theorem c1_witness :
    (-1073741824 : Int) < 3 ∧ (3 : Int) < 1073741824 ∧
    decodeVLQ (encodeVLQ 3) = some [3] :=
  ⟨by decide, by decide, c1_roundtrip 3 (by decide) (by decide)⟩

/-- C2 (counterexample): a blob the decoder accepts can contain a segment that
`getSegment` with exact bias does not find at its own position: `"EAAA,DAAA"`
decodes to one frame whose columns are out of order (3 then 2), and the
column-2 segment is not retrievable. -/
theorem c2_counterexample :
    decodeMappingString [] "EAAA,DAAA" 0 0 = .ok [some [c2segA, c2segB]] ∧
    c2segB.generatedLine = 1 ∧ c2segB.generatedColumn = some 2 ∧
    getSegment [some [c2segA, c2segB]] 1 2 Bias.BOUND = none := by
  refine ⟨by decide, by decide, by decide, by decide⟩

/-- C2 (amended): for every blob whose decode succeeds *and whose decoded
frames satisfy the spec's strictly-ascending-column invariant*, every emitted
segment is retrievable by `getSegment` with exact bias at its own generated
position; in particular `"AAAA"` decodes to the single segment
`{generatedLine 1, generatedColumn 1, sourceIndex 0, line 1, column 1,
nameIndex none}` and `getSegment(1, 1, BOUND)` returns it. -/
theorem c2_decode_query (blob : String) (m : MapType)
    (h : decodeMappingString [] blob 0 0 = .ok m)
    (hwf : ∀ fr ∈ m, ∀ segs, fr = some segs → WFFrame segs) :
    (∀ (j : Nat) segs S (c : Int), m.get? j = some (some segs) → S ∈ segs →
      S.generatedColumn = some c →
      getSegment m S.generatedLine c Bias.BOUND = some S) ∧
    decodeMappingString [] "AAAA" 0 0 = .ok [some [segAAAA]] ∧
    getSegment [some [segAAAA]] 1 1 Bias.BOUND = some segAAAA := by
  refine ⟨?_, by decide, by decide⟩
  intro j segs S c hj hS hcol
  have hgl : S.generatedLine = (j : Int) + 1 :=
    decodeMappingString_genLine [] blob 0 0 m h (by intro k segs' S' hk; simp at hk)
      j segs S hj hS
  have hwfs : WFFrame segs := hwf (some segs) (by
    rcases List.get?_eq_some.mp hj with ⟨hlt, hget⟩
    rw [← hget]
    exact List.get_mem m j hlt) segs rfl
  have hframe : m.get? (S.generatedLine - 1).toNat = some (some segs) := by
    rw [hgl]
    simpa using hj
  exact getSegment_exact m S.generatedLine segs (by omega) hframe hwfs S hS c hcol Bias.BOUND

/-- C2 witness: the amended decode-then-query property instantiated on the
minimal blob `"AAAA"`. -/
theorem c2_witness :
    getSegment [some [segAAAA]] segAAAA.generatedLine 1 Bias.BOUND = some segAAAA :=
  (c2_decode_query "AAAA" [some [segAAAA]] (by decide)
      (by
        intro fr hfr segs heq
        rcases List.mem_singleton.mp hfr with rfl
        cases heq
        exact wfSingleton _)).1
    0 [segAAAA] segAAAA 1 rfl (List.mem_singleton.mpr rfl) rfl

/-- C3: on a frame satisfying the sortedness invariant, an exact column match
is returned under every bias, and a query strictly between two consecutive
segments returns the lower one under `LOWER_BOUND`/FLOOR, the higher one under
`UPPER_BOUND`/CEILING, and `none` under `BOUND`/EXACT. -/
theorem c3_bias (m : MapType) (L : Int) (segs : List Segment)
    (hL : 1 ≤ L) (hframe : m.get? (L - 1).toNat = some (some segs))
    (hwf : WFFrame segs) :
    (∀ S ∈ segs, ∀ c : Int, S.generatedColumn = some c → ∀ bias,
      getSegment m L c bias = some S) ∧
    (∀ (i : Nat) s1 s2 (c1 c2 t : Int), segs.get? i = some s1 →
      segs.get? (i + 1) = some s2 → s1.generatedColumn = some c1 →
      s2.generatedColumn = some c2 → c1 < t → t < c2 →
      getSegment m L t Bias.LOWER_BOUND = some s1 ∧
      getSegment m L t Bias.UPPER_BOUND = some s2 ∧
      getSegment m L t Bias.BOUND = none) := by
  constructor
  · intro S hS c hcol bias
    exact getSegment_exact m L segs hL hframe hwf S hS c hcol bias
  · intro i s1 s2 c1 c2 t hi hi1 hc1 hc2 hlt1 hlt2
    exact getSegment_gap m L segs hL hframe hwf i s1 s2 c1 c2 t hi hi1 hc1 hc2 hlt1 hlt2

/-- C3 witness: the bias-selection scenario (two segments at generated
columns 5 and 10; queries at 7 and at 5). -/
theorem c3_witness :
    getSegment c3map 1 7 Bias.LOWER_BOUND = some c3segA ∧
    getSegment c3map 1 7 Bias.UPPER_BOUND = some c3segB ∧
    getSegment c3map 1 7 Bias.BOUND = none ∧
    getSegment c3map 1 5 Bias.BOUND = some c3segA ∧
    getSegment c3map 1 5 Bias.LOWER_BOUND = some c3segA ∧
    getSegment c3map 1 5 Bias.UPPER_BOUND = some c3segA := by
  have H := c3_bias c3map 1 [c3segA, c3segB] (by decide) (by decide)
    (wfPair c3segA c3segB (by decide))
  have Hgap := H.2 0 c3segA c3segB 5 10 7 rfl rfl rfl rfl (by decide) (by decide)
  have Hx := H.1 c3segA (List.mem_cons_self _ _) 5 rfl
  exact ⟨Hgap.1, Hgap.2.1, Hgap.2.2, Hx Bias.BOUND, Hx Bias.LOWER_BOUND, Hx Bias.UPPER_BOUND⟩

/-- C4 (counterexample): `"AAAA;;;AADA"` decodes to four frames as claimed,
but the fourth frame's segment has original column 1, not 2 (the `D` delta is
applied to the original line, which becomes 0). -/
theorem c4_counterexample :
    decodeMappingString [] "AAAA;;;AADA" 0 0 =
      .ok [some [segAAAA], none, none, some [c4seg4]] ∧
    c4seg4.column = some 1 ∧ c4seg4.column ≠ some 2 := by
  refine ⟨by decide, by decide, by decide⟩

/-- C4 (amended): `"AAAA;;;AADA"` yields four frames (non-empty, empty, empty,
non-empty); the fourth frame's single segment has `generatedLine 4`, original
line 0 and original column 1; and the per-frame reset touches only
`generatedColumn` and `generatedLine`, so the original-position accumulator
fields carry over across line separators. -/
theorem c4_frames :
    decodeMappingString [] "AAAA;;;AADA" 0 0 =
      .ok [some [segAAAA], none, none, some [c4seg4]] ∧
    c4seg4.generatedLine = 4 ∧ c4seg4.line = some 0 ∧ c4seg4.column = some 1 ∧
    (∀ (off : SegmentOffset) (gl : Int),
      (frameReset off gl).line = off.line ∧
      (frameReset off gl).column = off.column ∧
      (frameReset off gl).nameIndex = off.nameIndex ∧
      (frameReset off gl).sourceIndex = off.sourceIndex) := by
  exact ⟨by decide, by decide, by decide, by decide,
    fun off gl => ⟨rfl, rfl, rfl, rfl⟩⟩

/-- C5: `concat(a, b)` is *not* equivalent to `concat(a); concat(b)`: the loop
body decodes `maps[0].mappings` on every iteration, so the second iteration
re-decodes `a`'s mappings instead of `b`'s.  On the concrete scenario both
runs succeed but end in different states. -/
theorem c5_concat_not_sequential :
    c5oneShot.isSome ∧ c5twoShot.isSome ∧ c5oneShot ≠ c5twoShot := by
  refine ⟨by decide, by decide, by decide⟩

/-- C6 (counterexample): an envelope carrying exactly `sources`, `mappings`
and `names` is rejected with the missing-required-key error, because the
validator also requires `version` and `sourcesContent`. -/
theorem c6_counterexample :
    validateSourceMap c6threeKeys = false ∧
    SourceServiceNew c6threeKeys = .error .missingRequiredKey := by
  refine ⟨by decide, by decide⟩

/-- C6 (amended): construction fails with the missing-required-key error
exactly when one of the five keys `version`, `sources`, `sourcesContent`,
`mappings`, `names` is absent; `file` and `sourceRoot` play no role in
validation. -/
theorem c6_required_keys (input : SourceMapInput) :
    SourceServiceNew input = .error .missingRequiredKey ↔
      (input.version = none ∨ input.sources = none ∨ input.sourcesContent = none ∨
        input.mappings = none ∨ input.names = none) := by
  unfold SourceServiceNew
  by_cases hv : validateSourceMap input = true
  · rw [if_neg (not_not_intro hv)]
    simp only [validateSourceMap, Bool.and_eq_true, Option.isSome_iff_exists] at hv
    obtain ⟨⟨⟨⟨⟨v, hv1⟩, s, hs⟩, sc, hsc⟩, mp, hmp⟩, nm, hnm⟩ := hv
    constructor
    · intro h
      exfalso
      cases hdec : svcDecodeMappings [] (input.mappings.getD "") defaultShift with
      | error e => rw [hdec] at h; exact SvcError.noConfusion (Except.error.inj h)
      | ok ms => rw [hdec] at h; exact Except.noConfusion h
    · intro h
      exfalso
      rcases h with h | h | h | h | h <;> simp_all
  · rw [if_pos hv]
    constructor
    · intro _
      by_contra hcon
      push_neg at hcon
      obtain ⟨h1, h2, h3, h4, h5⟩ := hcon
      exact hv (by
        simp only [validateSourceMap, Bool.and_eq_true, Option.isSome_iff_ne_none]
        exact ⟨⟨⟨⟨h1, h2⟩, h3⟩, h4⟩, h5⟩)
    · intro _
      rfl

/-- C7 (counterexample): a delta vector of length 2 does not fail with an
invalid-segment-length error: `"AA"` decodes into a single segment (whose
original line and column are `NaN`). -/
theorem c7_counterexample :
    decodeVLQ "AA" = some [0, 0] ∧
    decodeMappingString [] "AA" 0 0 = .ok [some [c7seg]] := by
  refine ⟨by decide, by decide⟩

/-- C7 (amended): the provider performs no segment-length validation.
`decodedSegment` is total: for a length-1 vector the missing
`sourceIndex`/line/column deltas make those fields `NaN` (modelled `none`) and
`nameIndex` is `null`; the emitted `nameIndex` is present exactly when the
vector has length at least 5; and the length-2 blob `"AA"` decodes without
error. -/
theorem c7_no_length_validation :
    (∀ (off : SegmentOffset) (ds : List Int), ds.length = 1 →
      (decodedSegment off ds).2.sourceIndex = none ∧
      (decodedSegment off ds).2.line = none ∧
      (decodedSegment off ds).2.column = none ∧
      (decodedSegment off ds).2.nameIndex = none) ∧
    (∀ (off : SegmentOffset) (ds : List Int),
      (decodedSegment off ds).2.nameIndex.isSome ↔ 5 ≤ ds.length) ∧
    decodeMappingString [] "AA" 0 0 = .ok [some [c7seg]] := by
  have haddnone : ∀ a : Option Int, jsAddOpt a none = none := by
    intro a; cases a <;> rfl
  refine ⟨?_, ?_, by decide⟩
  · intro off ds hlen
    match ds, hlen with
    | [d], _ =>
      refine ⟨haddnone _, ?_, ?_, rfl⟩
      · show (jsAddOpt off.line none).map (· + 1) = none
        rw [haddnone]
        rfl
      · show (jsAddOpt off.column none).map (· + 1) = none
        rw [haddnone]
        rfl
  · intro off ds
    show (if (ds.get? 4).isSome then some _ else none).isSome ↔ 5 ≤ ds.length
    by_cases h4 : (ds.get? 4).isSome
    · rw [if_pos h4]
      rcases Option.isSome_iff_exists.mp h4 with ⟨d, hd⟩
      have := (List.get?_eq_some.mp hd).1
      simp only [Option.isSome_some, true_iff]
      omega
    · rw [if_neg h4]
      have hlen : ds.length ≤ 4 := by
        by_contra hcon
        rcases List.get?_eq_some.mp (List.get?_eq_get (by omega : 4 < ds.length)) with _
        exact h4 (by rw [List.get?_eq_get (by omega : 4 < ds.length)]; rfl)
      simp only [Option.isSome_none, Bool.false_eq_true, false_iff]
      omega

/-- C7 witness: the length-1 clause of the amended statement at a concrete
offset and vector. -/
theorem c7_witness :
    (([0] : List Int).length = 1) ∧
    (decodedSegment (initPositionOffsets 0 0) [0]).2.line = none ∧
    (decodedSegment (initPositionOffsets 0 0) [0]).2.nameIndex = none :=
  ⟨by decide,
    (c7_no_length_validation.1 (initPositionOffsets 0 0) [0] rfl).2.1,
    (c7_no_length_validation.1 (initPositionOffsets 0 0) [0] rfl).2.2.2⟩

/-- C8: the string decode is atomic: whenever `decodeMappingString` fails, the
stored frame list it leaves behind is exactly the one it started from (the
charset validation runs before any mutation, and after it passes no error can
occur: every remaining character is a valid base64 digit). -/
theorem c8_atomic_decode (m : MapType) (s : String) (no so : Int)
    (e : MapError) (m' : MapType)
    (h : decodeMappingString m s no so = .error (e, m')) : m' = m := by
  unfold decodeMappingString at h
  by_cases hv : validateMappingString s = true
  · rw [if_neg (not_not_intro hv)] at h
    exfalso
    have hall : ∀ c ∈ s.toList, isMappingChar c = true := by
      have hv2 := (Bool.and_eq_true _ _).mp hv
      exact List.all_eq_true.mp hv2.2
    have hframes : ∀ f ∈ splitOnChar ';' s.toList, ∀ c ∈ f,
        isMappingChar c = true ∧ c ≠ ';' := by
      intro f hf c hc
      have hm := splitOnChar_mem ';' s.toList f hf c hc
      exact ⟨hall c hm.1, hm.2⟩
    rcases decodeFrames_ok (splitOnChar ';' s.toList) 0 (m.length)
        (initPositionOffsets no so) m hframes with ⟨r, hr⟩
    rw [hr] at h
    exact Except.noConfusion h
  · rw [if_pos hv] at h
    cases h
    rfl

/-- C8 witness: a blob with an invalid character fails with the format error
and leaves an empty engine empty. -/
theorem c8_witness :
    decodeMappingString [] "!" 0 0 = .error (.invalidFormat, []) ∧
    ([] : MapType) = [] :=
  ⟨by decide, c8_atomic_decode [] "!" 0 0 .invalidFormat [] (by decide)⟩

/-- C9: the VLQ boundary table of the spec: `0 → "A"`, `1 → "C"`, `-1 → "D"`,
`-10 → "V"`, `18 → "kB"`, the array `[0, 1, -1, -18, 18, -18]` encodes to
`"ACDlBkBlB"` and decodes back. -/
theorem c9_vlq_boundaries :
    encodeVLQ 0 = "A" ∧ encodeVLQ 1 = "C" ∧ encodeVLQ (-1) = "D" ∧
    encodeVLQ (-10) = "V" ∧ encodeVLQ 18 = "kB" ∧
    encodeArrayVLQ [0, 1, -1, -18, 18, -18] = "ACDlBkBlB" ∧
    decodeVLQ "ACDlBkBlB" = some [0, 1, -1, -18, 18, -18] := by
  refine ⟨by decide, by decide, by decide, by decide, by decide, by decide, by decide⟩

/-- C10: trailing digits with the continuation bit set and no terminator are
silently discarded: appending any such run to a valid input leaves the decoded
array unchanged and raises no error. -/
theorem c10_trailing_continuation (s u : String)
    (hs : ∀ c ∈ s.toList, (base64Map c).isSome)
    (hu : ∀ c ∈ u.toList, isContinuationChar c = true) :
    decodeVLQ (s ++ u) = decodeVLQ s ∧ (decodeVLQ (s ++ u)).isSome := by
  have htl : (s ++ u).toList = s.toList ++ u.toList := by
    show (s ++ u).data = s.data ++ u.data
    exact String.data_append s u
  rcases Option.isSome_iff_exists.mp
      (foldlM_decodeStep_isSome s.toList ⟨0, 0, []⟩ hs) with ⟨st1, h1⟩
  have hbind : List.foldlM decodeStep (⟨0, 0, []⟩ : DecState) (s.toList ++ u.toList) =
      List.foldlM decodeStep st1 u.toList := by
    rw [List.foldlM_append, h1]
    exact Option.some_bind _ _
  rcases foldlM_decodeStep_continuations u.toList st1 hu with ⟨st2, h2, h3⟩
  have hmain : decodeVLQ (s ++ u) = decodeVLQ s := by
    unfold decodeVLQ decodeVLQchars
    rw [htl, hbind, h1, h2, Option.map_some', Option.map_some', h3]
  refine ⟨hmain, ?_⟩
  rw [hmain]
  unfold decodeVLQ decodeVLQchars
  rw [h1]
  rfl

/-- C10 witness: `decodeVLQ("g")` — a single unterminated continuation digit —
returns the empty array, equal to decoding the empty string. -/
theorem c10_witness :
    decodeVLQ ("" ++ "g") = decodeVLQ "" ∧ (decodeVLQ ("" ++ "g")).isSome ∧
    decodeVLQ "" = some [] :=
  ⟨(c10_trailing_continuation "" "g" (by decide) (by decide)).1,
   (c10_trailing_continuation "" "g" (by decide) (by decide)).2,
   by decide⟩

end XMap
